import Mathlib

/-!
Shallow embedding of `src/vs/workbench/parts/files/electron-browser/views/explorerViewer.ts`:
the explorer data source, renderer edit sessions, visibility filter and sorter.
External services (file service, configuration service, glob engine, locale-aware
comparers, workspace context) are modelled as explicit function parameters, matching
the capability-interface contracts they satisfy in the source.
-/

/-- One filesystem entry shown in the explorer tree (`ExplorerItem` from
`explorerModel.ts`), restricted to the attributes this module reads:
`resource.path`, `name`, `isDirectory`, `isRoot`, `mtime`, the owning root
(`root.resource.toString()` as `rootKey`, `root.resource.path` as `rootPath`)
and the names reachable through `parent.getChild` (as `siblingNames`). -/
structure ExplorerItem where
  resourcePath : String
  name : String
  isDirectory : Bool
  isRoot : Bool
  mtime : Int
  rootKey : String
  rootPath : String
  siblingNames : List String
deriving Repr, DecidableEq

/-- Argument type of the data source: `ExplorerItem | ExplorerItem[]`. -/
inductive ExplorerInput where
  | item (e : ExplorerItem)
  | items (es : List ExplorerItem)
deriving Repr

/-- `ExplorerDataSource.hasChildren`: `Array.isArray(element) || element.isDirectory`. -/
def ExplorerDataSource.hasChildren : ExplorerInput → Bool
  | .items _ => true
  | .item e => e.isDirectory

/-- Observable outcome of `ExplorerDataSource.getChildren`: the list the returned
promise resolves with, together with the errors pushed to the notification
service. A rejection would be a third component; `getChildren` always resolves,
which the total return type makes explicit. -/
structure GetChildrenOutcome where
  children : List ExplorerItem
  notifications : List String
deriving Repr, DecidableEq

/-- `ExplorerDataSource.getChildren`. The external file-service fetch
(`element.fetchChildren(this.fileService)`) is passed in as `fetchChildren`,
its settled value being `Except.ok` children or `Except.error e`. An array
argument resolves immediately with itself; a failed fetch is notified
(suppressed for roots) and resolved with the empty list. The progress
indicator (`progressService.showWhile`) has no observable value and is
not modelled. -/
def ExplorerDataSource.getChildren
    (fetchChildren : ExplorerItem → Except String (List ExplorerItem)) :
    ExplorerInput → GetChildrenOutcome
  | .items es => ⟨es, []⟩
  | .item e =>
    match fetchChildren e with
    | .ok cs => ⟨cs, []⟩
    | .error err => ⟨[], if e.isRoot then [] else [err]⟩

/-- `TreeVisibility` from `vs/base/browser/ui/tree/tree.ts`. -/
inductive TreeVisibility where
  | Hidden
  | Visible
  | Recurse
deriving Repr, DecidableEq

/-- A raw `files.exclude` glob expression (`glob.IExpression`), modelled as an
association list from glob pattern to its boolean flag; `equals` (deep
structural comparison) becomes decidable equality of this representation. -/
abbrev GlobExpression := List (String × Bool)

/-- A compiled glob matcher (`glob.ParsedExpression`): takes the normalized
root-relative path, the item basename, and a sibling-existence probe. The glob
engine is external, so matchers stay abstract functions. -/
abbrev ParsedExpression := String → String → (String → Bool) → Bool

/-- `CachedParsedExpression`: the raw expression plus its compiled matcher. -/
structure CachedParsedExpression where
  original : GlobExpression
  parsed : ParsedExpression

/-- `hiddenExpressionPerRoot`: `Map<string, CachedParsedExpression>` keyed by
`root.resource.toString()`, modelled by its lookup function. -/
abbrev RootExpressionMap := String → Option CachedParsedExpression

/-- `Map.set` on the lookup-function model of the per-root cache. -/
def mapSet (m : RootExpressionMap) (k : String) (v : CachedParsedExpression) :
    RootExpressionMap :=
  fun j => if j = k then some v else m j

/-- `deepClone` from `vs/base/common/objects` on a raw glob expression. Lean
values are immutable, so a deep copy is observationally the value itself; the
aliasing the source guards against ("the config gets mutated under our hoods")
has no counterpart here. -/
def deepClone (e : GlobExpression) : GlobExpression := e

/-- State read by `FilesFilter.filter`: the per-root cache, the truthiness of
`explorerService.getEditableData(stat)`, and the external path utility
`normalize(path.relative(rootPath, statPath), true)` as `relNorm`. -/
structure FilesFilter where
  hiddenExpressionPerRoot : RootExpressionMap
  hasEditableData : ExplorerItem → Bool
  relNorm : String → String → String

/-- `FilesFilter.filter(stat, parentVisibility)`: hidden parent short-circuits
to hidden; edit sessions and roots are always visible; otherwise the item is
hidden iff the cached matcher for its root accepts its normalized
root-relative path, given the basename and the sibling probe
`name => !!stat.parent.getChild(name)`. -/
def FilesFilter.filter (f : FilesFilter) (stat : ExplorerItem)
    (parentVisibility : TreeVisibility) : Bool :=
  if parentVisibility = TreeVisibility.Hidden then
    false
  else if f.hasEditableData stat || stat.isRoot then
    true
  else
    match f.hiddenExpressionPerRoot stat.rootKey with
    | some cached =>
      if cached.parsed (f.relNorm stat.rootPath stat.resourcePath) stat.name
          (fun n => stat.siblingNames.contains n) then
        false
      else
        true
    | none => true

/-- Environment of `FilesFilter.updateConfiguration`: the current workspace
folder keys (`folder.uri.toString()`, in order), the configuration read
`configuration?.files?.exclude` per folder, and the external compiler
`glob.parse`. -/
structure FilterEnv where
  folders : List String
  getExcludeConfig : String → Option GlobExpression
  globParse : GlobExpression → ParsedExpression

/-- The raw exclude expression read for one folder:
`(configuration && configuration.files && configuration.files.exclude) || Object.create(null)`. -/
def FilterEnv.excludesOf (env : FilterEnv) (folderKey : String) : GlobExpression :=
  (env.getExcludeConfig folderKey).getD []

/-- The cache entry `updateConfiguration` writes for one folder: the deep copy
of the raw expression and the matcher compiled from that copy. -/
def FilterEnv.cachedEntry (env : FilterEnv) (folderKey : String) :
    CachedParsedExpression :=
  let excludesConfigCopy := deepClone (env.excludesOf folderKey)
  ⟨excludesConfigCopy, env.globParse excludesConfigCopy⟩

/-- Body of the `forEach` in `updateConfiguration`: when `needsRefresh` is
still false, set it to `!cached || !equals(cached.original, excludesConfig)`;
then overwrite the cache entry for the folder. -/
def updateConfigurationStep (env : FilterEnv) (acc : Bool × RootExpressionMap)
    (folderKey : String) : Bool × RootExpressionMap :=
  let excludesConfig := env.excludesOf folderKey
  let needsRefresh :=
    if acc.1 then
      true
    else
      match acc.2 folderKey with
      | none => true
      | some cached => !(cached.original == excludesConfig)
  (needsRefresh, mapSet acc.2 folderKey (env.cachedEntry folderKey))

/-- `FilesFilter.updateConfiguration`: folds the per-folder step over the
current workspace folders, starting from `needsRefresh = false` and the
current cache, returning the flag and the rewritten cache. -/
def FilesFilter.updateConfiguration (env : FilterEnv) (m : RootExpressionMap) :
    Bool × RootExpressionMap :=
  env.folders.foldl (updateConfigurationStep env) (false, m)

/-- Predicate under which one folder flips `needsRefresh`: no cached entry for
its key, or the cached raw expression differs from the freshly read one. -/
def rootNeedsRefresh (env : FilterEnv) (m : RootExpressionMap)
    (folderKey : String) : Bool :=
  match m folderKey with
  | none => true
  | some cached => !(cached.original == env.excludesOf folderKey)

/-- Services read by `FileSorter.compare`: `explorerService.sortOrder`, the
workspace-folder index lookup `contextService.getWorkspaceFolder(resource).index`,
and the external locale-aware comparers from `vs/base/common/comparers`. -/
structure FileSorter where
  sortOrder : String
  getWorkspaceFolderIndex : String → Int
  compareFileNames : String → String → Int
  compareFileExtensions : String → String → Int

/-- `FileSorter.compare(statA, statB)`: roots pin first (two roots by declared
folder index); then the directory/file grouping switch per sort mode (a `some`
is a `return`, `none` is a `break` falling through), then the file comparison
switch. -/
def FileSorter.compare (s : FileSorter) (statA statB : ExplorerItem) : Int :=
  if statA.isRoot then
    if statB.isRoot then
      s.getWorkspaceFolderIndex statA.resourcePath -
        s.getWorkspaceFolderIndex statB.resourcePath
    else
      -1
  else if statB.isRoot then
    1
  else
    let dirOrder : Option Int :=
      if s.sortOrder = "type" then
        if statA.isDirectory && !statB.isDirectory then some (-1)
        else if statB.isDirectory && !statA.isDirectory then some 1
        else if statA.isDirectory && statB.isDirectory then
          some (s.compareFileNames statA.name statB.name)
        else none
      else if s.sortOrder = "filesFirst" then
        if statA.isDirectory && !statB.isDirectory then some 1
        else if statB.isDirectory && !statA.isDirectory then some (-1)
        else none
      else if s.sortOrder = "mixed" then
        none
      else
        if statA.isDirectory && !statB.isDirectory then some (-1)
        else if statB.isDirectory && !statA.isDirectory then some 1
        else none
    match dirOrder with
    | some r => r
    | none =>
      if s.sortOrder = "type" then
        s.compareFileExtensions statA.name statB.name
      else if s.sortOrder = "modified" then
        if statA.mtime ≠ statB.mtime then
          if statA.mtime < statB.mtime then 1 else -1
        else
          s.compareFileNames statA.name statB.name
      else
        s.compareFileNames statA.name statB.name

/-- The validator installed on the input box in `renderInputBox`:
`editableData.validationMessage` returning an error message or nothing. A
falsy content (absent or empty string) means the value is valid. -/
structure RenderInputBoxModel where
  validationMessage : String → Option String

/-- Validity of a candidate value, as both `inputBox.validate()` and
`inputBox.isInputValid()` report it for the installed validation function:
true iff `editableData.validationMessage(value)` is falsy. -/
def editValid (m : RenderInputBoxModel) (value : String) : Bool :=
  match m.validationMessage value with
  | none => true
  | some content => content = ""

/-- Observable state of one `renderInputBox` edit session: whether the
once-guarded `done` continuation has fired, whether the `toDispose` resources
(input box, both listeners, label, styler) have been released, and the log of
`editableData.onFinish(value, success)` invocations. -/
structure EditSessionState where
  finished : Bool
  disposed : Bool
  finishCalls : List (String × Bool)
deriving Repr, DecidableEq

/-- The session state when `renderInputBox` returns: nothing fired yet. -/
def initialEditSession : EditSessionState :=
  ⟨false, false, []⟩

/-- The `done` continuation, `once`-guarded: on its first call it disposes
`toDispose` and invokes `editableData.onFinish(inputBox.value, success)`;
later calls are no-ops. `value` is the input box's value at call time; the
second source parameter (`blur`) is unused by the body and kept for shape. -/
def doneOnce (value : String) (success : Bool) (_blur : Bool)
    (s : EditSessionState) : EditSessionState :=
  if s.finished then
    s
  else
    ⟨true, true, s.finishCalls ++ [(value, success)]⟩

/-- The three trigger conditions wired to the input box. -/
inductive EditEvent where
  | keyEnter
  | keyEscape
  | blurEvent
deriving Repr, DecidableEq

/-- One trigger firing, with `value` the input box's content at that moment:
Enter calls `done(true, false)` only if `inputBox.validate()` holds; Escape
calls `done(false, false)`; blur calls `done(inputBox.isInputValid(), true)`. -/
def handleEdit (m : RenderInputBoxModel) (s : EditSessionState)
    (ev : EditEvent) (value : String) : EditSessionState :=
  match ev with
  | .keyEnter => if editValid m value then doneOnce value true false s else s
  | .keyEscape => doneOnce value false false s
  | .blurEvent => doneOnce value (editValid m value) true s

/-- A whole edit session: the triggers that occur, in order, each with the
input value current when it fires, applied to the fresh session state. -/
def runEditSession (m : RenderInputBoxModel)
    (events : List (EditEvent × String)) : EditSessionState :=
  events.foldl (fun s p => handleEdit m s p.1 p.2) initialEditSession

/-- A sample non-root file item used to instantiate theorems with hypotheses. -/
def sampleFile : ExplorerItem :=
  ⟨"/r/a.txt", "a.txt", false, false, 5, "file:///r", "/r", ["b.txt"]⟩

/-- A sample non-root directory item. -/
def sampleDir : ExplorerItem :=
  ⟨"/r/B", "B", true, false, 9, "file:///r", "/r", ["a.txt"]⟩

/-- A sample root item. -/
def sampleRoot : ExplorerItem :=
  ⟨"/r", "r", true, true, 0, "file:///r", "/r", []⟩

/-- A second sample root item. -/
def sampleRoot2 : ExplorerItem :=
  ⟨"/s", "s", true, true, 0, "file:///s", "/s", []⟩

/-- C9: `ExplorerDataSource.hasChildren` is true on every bare root list
(including the empty one), and on a single item it equals the item's
`isDirectory` flag — in particular false for every non-directory item. -/
theorem c9_hasChildren_spec :
    (∀ es : List ExplorerItem,
      ExplorerDataSource.hasChildren (.items es) = true) ∧
    (∀ e : ExplorerItem,
      ExplorerDataSource.hasChildren (.item e) = e.isDirectory) := by
  exact ⟨fun _ => rfl, fun _ => rfl⟩

/-- C6: when the child fetch for a single item fails, `getChildren` resolves
(rather than rejecting) with the empty list; exactly one error notification is
issued when the item is not a root, and none when it is a root. -/
theorem c6_getChildren_fetch_error
    (fetchChildren : ExplorerItem → Except String (List ExplorerItem))
    (e : ExplorerItem) (err : String)
    (h : fetchChildren e = .error err) :
    ExplorerDataSource.getChildren fetchChildren (.item e) =
      ⟨[], if e.isRoot then [] else [err]⟩ ∧
    (ExplorerDataSource.getChildren fetchChildren (.item e)).notifications.length =
      (if e.isRoot then 0 else 1) := by
  constructor
  · simp [ExplorerDataSource.getChildren, h]
  · by_cases hr : e.isRoot <;> simp [ExplorerDataSource.getChildren, h, hr]

/-- Witness for C6 at a concrete failing fetch on a non-root item. -/
theorem c6_getChildren_fetch_error_witness :
    ExplorerDataSource.getChildren (fun _ => Except.error "io")
        (.item sampleFile) =
      ⟨[], if sampleFile.isRoot then [] else ["io"]⟩ ∧
    (ExplorerDataSource.getChildren (fun _ => Except.error "io")
        (.item sampleFile)).notifications.length =
      (if sampleFile.isRoot then 0 else 1) :=
  c6_getChildren_fetch_error (fun _ => Except.error "io") sampleFile "io" rfl

/-- C3: in every sort mode, a root compares before any non-root (result -1 /
1), and two roots compare by the difference of their declared
workspace-folder indices, so the smaller index sorts first. -/
theorem c3_compare_roots (s : FileSorter) (a b : ExplorerItem) :
    (a.isRoot = true → b.isRoot = false → FileSorter.compare s a b = -1) ∧
    (a.isRoot = false → b.isRoot = true → FileSorter.compare s a b = 1) ∧
    (a.isRoot = true → b.isRoot = true →
      FileSorter.compare s a b =
        s.getWorkspaceFolderIndex a.resourcePath -
          s.getWorkspaceFolderIndex b.resourcePath) ∧
    (a.isRoot = true → b.isRoot = true →
      s.getWorkspaceFolderIndex a.resourcePath <
        s.getWorkspaceFolderIndex b.resourcePath →
      FileSorter.compare s a b < 0) := by
  refine ⟨?_, ?_, ?_, ?_⟩
  · intro ha hb; simp [FileSorter.compare, ha, hb]
  · intro ha hb; simp [FileSorter.compare, ha, hb]
  · intro ha hb; simp [FileSorter.compare, ha, hb]
  · intro ha hb hlt; simp [FileSorter.compare, ha, hb]; omega

/-- Witness for C3: two concrete roots with indices 0 and 1. -/
theorem c3_compare_roots_witness :
    FileSorter.compare
        ⟨"modified", fun p => if p = "/r" then 0 else 1, fun _ _ => 0,
          fun _ _ => 0⟩ sampleRoot sampleRoot2 =
      (⟨"modified", fun p => if p = "/r" then 0 else 1, fun _ _ => 0,
          fun _ _ => 0⟩ : FileSorter).getWorkspaceFolderIndex
          sampleRoot.resourcePath -
        (⟨"modified", fun p => if p = "/r" then 0 else 1, fun _ _ => 0,
          fun _ _ => 0⟩ : FileSorter).getWorkspaceFolderIndex
          sampleRoot2.resourcePath :=
  (c3_compare_roots _ sampleRoot sampleRoot2).2.2.1 rfl rfl

/-- C4: in sort mode `type`, among non-root items a directory sorts before a
file (so the directory "B" sorts before the file "a.txt" regardless of
names), two directories compare by the file-name comparer, and two files
compare by the file-extension comparer. -/
theorem c4_compare_type_mode (s : FileSorter) (a b : ExplorerItem)
    (hs : s.sortOrder = "type") (ha : a.isRoot = false)
    (hb : b.isRoot = false) :
    (a.isDirectory = true → b.isDirectory = false →
      FileSorter.compare s a b = -1) ∧
    (a.isDirectory = false → b.isDirectory = true →
      FileSorter.compare s a b = 1) ∧
    (a.isDirectory = true → b.isDirectory = true →
      FileSorter.compare s a b = s.compareFileNames a.name b.name) ∧
    (a.isDirectory = false → b.isDirectory = false →
      FileSorter.compare s a b = s.compareFileExtensions a.name b.name) := by
  refine ⟨?_, ?_, ?_, ?_⟩ <;> intro hda hdb <;>
    simp [FileSorter.compare, hs, ha, hb, hda, hdb]

/-- Witness for C4: directory "B" sorts before file "a.txt" in `type` mode,
with lexicographic-style comparers that would put "a.txt" first. -/
theorem c4_compare_type_mode_witness :
    FileSorter.compare
        ⟨"type", fun _ => 0, fun x y => if x < y then -1 else 1,
          fun x y => if x < y then -1 else 1⟩ sampleDir sampleFile = -1 :=
  (c4_compare_type_mode _ sampleDir sampleFile rfl rfl rfl).1 rfl rfl

/-- C5: in sort mode `modified`, among non-root items of the same
directory/file group, the larger modification time sorts first (result -1
when the first item is newer, 1 when older), and equal times fall back to the
file-name comparer. -/
theorem c5_compare_modified_mode (s : FileSorter) (a b : ExplorerItem)
    (hs : s.sortOrder = "modified") (ha : a.isRoot = false)
    (hb : b.isRoot = false) (hg : a.isDirectory = b.isDirectory) :
    (b.mtime < a.mtime → FileSorter.compare s a b = -1) ∧
    (a.mtime < b.mtime → FileSorter.compare s a b = 1) ∧
    (a.mtime = b.mtime →
      FileSorter.compare s a b = s.compareFileNames a.name b.name) := by
  refine ⟨?_, ?_, ?_⟩ <;> intro hm
  · have h1 : a.mtime ≠ b.mtime := by omega
    have h2 : ¬ a.mtime < b.mtime := by omega
    cases hd : b.isDirectory <;>
      simp [FileSorter.compare, hs, ha, hb, hg, hd, h1, h2]
  · have h1 : a.mtime ≠ b.mtime := by omega
    cases hd : b.isDirectory <;>
      simp [FileSorter.compare, hs, ha, hb, hg, hd, h1, hm]
  · cases hd : b.isDirectory <;>
      simp [FileSorter.compare, hs, ha, hb, hg, hd, hm]

/-- Witness for C5: two concrete files with mtimes 9 and 5; the newer (9)
sorts first. -/
theorem c5_compare_modified_mode_witness :
    FileSorter.compare
        ⟨"modified", fun _ => 0, fun _ _ => 7, fun _ _ => 7⟩
        ⟨"/r/new.txt", "new.txt", false, false, 9, "file:///r", "/r", []⟩
        sampleFile = -1 :=
  (c5_compare_modified_mode _
      ⟨"/r/new.txt", "new.txt", false, false, 9, "file:///r", "/r", []⟩
      sampleFile rfl rfl rfl rfl).1 (by decide)

/-- C1: `FilesFilter.filter` hides an item when its parent is hidden,
whatever the cache and matchers hold (the first conjunct quantifies over
every filter state, so no matcher can influence it); an item with an
editable-data record or a root is visible unconditionally; any other item is
hidden exactly when the matcher cached for its root accepts its normalized
root-relative path, given the basename and the sibling-existence probe. -/
theorem c1_filter_spec (f : FilesFilter) (stat : ExplorerItem)
    (pv : TreeVisibility) :
    (pv = TreeVisibility.Hidden → FilesFilter.filter f stat pv = false) ∧
    (pv ≠ TreeVisibility.Hidden →
      (f.hasEditableData stat || stat.isRoot) = true →
      FilesFilter.filter f stat pv = true) ∧
    (pv ≠ TreeVisibility.Hidden → f.hasEditableData stat = false →
      stat.isRoot = false →
      (FilesFilter.filter f stat pv = false ↔
        ∃ cached, f.hiddenExpressionPerRoot stat.rootKey = some cached ∧
          cached.parsed (f.relNorm stat.rootPath stat.resourcePath) stat.name
            (fun n => stat.siblingNames.contains n) = true)) := by
  refine ⟨?_, ?_, ?_⟩
  · intro h
    simp [FilesFilter.filter, h]
  · intro h he
    simp [FilesFilter.filter, h, he]
  · intro h he hr
    cases hc : f.hiddenExpressionPerRoot stat.rootKey with
    | none => simp [FilesFilter.filter, h, he, hr, hc]
    | some cached =>
      by_cases hm : cached.parsed (f.relNorm stat.rootPath stat.resourcePath)
          stat.name (fun n => stat.siblingNames.contains n) = true
      · simp [FilesFilter.filter, h, he, hr, hc, hm]
      · simp only [Bool.not_eq_true] at hm
        simp [FilesFilter.filter, h, he, hr, hc, hm]

/-- A concrete filter state: one compiled expression cached for the root
`file:///r`, matching exactly the relative path "a.txt"; no edit sessions. -/
def sampleFilter : FilesFilter :=
  ⟨fun k => if k = "file:///r" then
      some ⟨[("a.txt", true)], fun rel _ _ => rel = "a.txt"⟩
    else none,
   fun _ => false,
   fun _ p => (p.drop 3).drop 0⟩

/-- Witness for C1: with the sample cache, the non-root file "a.txt" with a
visible parent is hidden through the pattern. -/
theorem c1_filter_spec_witness :
    FilesFilter.filter sampleFilter sampleFile TreeVisibility.Visible =
      false :=
  ((c1_filter_spec sampleFilter sampleFile TreeVisibility.Visible).2.2
      (by decide) rfl rfl).mpr
    ⟨⟨[("a.txt", true)], fun rel _ _ => rel = "a.txt"⟩, rfl, by rfl⟩

/-- C10: a non-root item with no edit session whose root has no entry in the
per-root cache is reported visible (given the top-down rule has not already
hidden its parent): an absent cache entry never hides an item. -/
theorem c10_filter_absent_cache (f : FilesFilter) (stat : ExplorerItem)
    (pv : TreeVisibility) (hp : pv ≠ TreeVisibility.Hidden)
    (he : f.hasEditableData stat = false) (hr : stat.isRoot = false)
    (hc : f.hiddenExpressionPerRoot stat.rootKey = none) :
    FilesFilter.filter f stat pv = true := by
  simp [FilesFilter.filter, hp, he, hr, hc]

/-- A filter state with an empty cache and no edit sessions. -/
def emptyFilter : FilesFilter :=
  ⟨fun _ => none, fun _ => false, fun _ p => p⟩

/-- Witness for C10: with an empty cache, the sample file stays visible. -/
theorem c10_filter_absent_cache_witness :
    FilesFilter.filter emptyFilter sampleFile TreeVisibility.Visible = true :=
  c10_filter_absent_cache emptyFilter sampleFile TreeVisibility.Visible
    (by decide) rfl rfl rfl

/-- The invariant tying an edit session's components together: resources are
disposed exactly when the once-guard has fired, and the completion callback
has run exactly once when it has, never before. -/
def editSessionInv (s : EditSessionState) : Prop :=
  s.disposed = s.finished ∧
    s.finishCalls.length = (if s.finished then 1 else 0)

theorem doneOnce_inv (value : String) (success bl : Bool)
    (s : EditSessionState) (h : editSessionInv s) :
    editSessionInv (doneOnce value success bl s) := by
  obtain ⟨h1, h2⟩ := h
  cases hf : s.finished with
  | true =>
    have hid : doneOnce value success bl s = s := by simp [doneOnce, hf]
    rw [hid]
    exact ⟨h1, h2⟩
  | false =>
    have hl : s.finishCalls.length = 0 := by simpa [hf] using h2
    unfold doneOnce editSessionInv
    simp [hf, hl]

theorem handleEdit_inv (m : RenderInputBoxModel) (s : EditSessionState)
    (ev : EditEvent) (value : String) (h : editSessionInv s) :
    editSessionInv (handleEdit m s ev value) := by
  cases ev with
  | keyEnter =>
    by_cases hv : editValid m value = true
    · simpa [handleEdit, hv] using doneOnce_inv value true false s h
    · simp only [Bool.not_eq_true] at hv
      simpa [handleEdit, hv] using h
  | keyEscape => exact doneOnce_inv value false false s h
  | blurEvent => exact doneOnce_inv value (editValid m value) true s h

theorem runEditSession_inv_aux (m : RenderInputBoxModel)
    (events : List (EditEvent × String)) :
    ∀ s : EditSessionState, editSessionInv s →
      editSessionInv (events.foldl (fun t p => handleEdit m t p.1 p.2) s) := by
  induction events with
  | nil => intro s h; simpa using h
  | cons p rest ih =>
    intro s h
    simpa using ih (handleEdit m s p.1 p.2) (handleEdit_inv m s p.1 p.2 h)

/-- C7: over any sequence of trigger firings in one edit session, the
completion callback `onFinish` runs at most once; it has run exactly once iff
the once-guarded `done` continuation has fired; and the input box, listeners,
styler and label are disposed exactly on that first firing. -/
theorem c7_edit_session_once (m : RenderInputBoxModel)
    (events : List (EditEvent × String)) :
    (runEditSession m events).finishCalls.length ≤ 1 ∧
    ((runEditSession m events).finished = true ↔
      (runEditSession m events).finishCalls.length = 1) ∧
    (runEditSession m events).disposed = (runEditSession m events).finished := by
  have h := runEditSession_inv_aux m events initialEditSession
    (by constructor <;> rfl)
  obtain ⟨h1, h2⟩ := h
  unfold runEditSession
  refine ⟨?_, ?_, h1⟩
  · rw [h2]; split <;> omega
  · rw [h2]
    cases hf : (List.foldl (fun t p => handleEdit m t p.1 p.2)
        initialEditSession events).finished <;> simp [hf]

/-- C8: commit triggers on a session whose once-guard has not yet fired:
Enter completes with success only when the current value validates, and an
invalid value on Enter changes nothing; Escape always completes with
`success = false`; blur completes with success equal to the current
validity. -/
theorem c8_commit_triggers (m : RenderInputBoxModel) (s : EditSessionState)
    (value : String) (h : s.finished = false) :
    (editValid m value = false → handleEdit m s .keyEnter value = s) ∧
    (editValid m value = true →
      (handleEdit m s .keyEnter value).finishCalls =
        s.finishCalls ++ [(value, true)]) ∧
    (handleEdit m s .keyEscape value).finishCalls =
      s.finishCalls ++ [(value, false)] ∧
    (handleEdit m s .blurEvent value).finishCalls =
      s.finishCalls ++ [(value, editValid m value)] := by
  refine ⟨?_, ?_, ?_, ?_⟩
  · intro hv; simp [handleEdit, hv]
  · intro hv; simp [handleEdit, doneOnce, hv, h]
  · simp [handleEdit, doneOnce, h]
  · simp [handleEdit, doneOnce, h]

/-- A validator that accepts exactly nonempty names. -/
def sampleValidator : RenderInputBoxModel :=
  ⟨fun v => if v = "" then some "empty name" else none⟩

/-- Witness for C8: from the fresh session, Escape with the (invalid) empty
value completes with `success = false`. -/
theorem c8_commit_triggers_witness :
    (handleEdit sampleValidator initialEditSession .keyEscape "").finishCalls =
      initialEditSession.finishCalls ++ [("", false)] :=
  (c8_commit_triggers sampleValidator initialEditSession "" rfl).2.2.1

theorem updateConfigurationStep_eq (env : FilterEnv)
    (acc : Bool × RootExpressionMap) (k : String) :
    updateConfigurationStep env acc k =
      (acc.1 || rootNeedsRefresh env acc.2 k,
        mapSet acc.2 k (env.cachedEntry k)) := by
  unfold updateConfigurationStep rootNeedsRefresh
  cases h : acc.1 <;> simp [h]

theorem updateConfiguration_map_aux (env : FilterEnv) (ks : List String) :
    ∀ (acc : Bool × RootExpressionMap) (k : String),
      (ks.foldl (updateConfigurationStep env) acc).2 k =
        (if k ∈ ks then some (env.cachedEntry k) else acc.2 k) := by
  induction ks with
  | nil => intro acc k; simp
  | cons k0 ks ih =>
    intro acc k
    rw [List.foldl_cons, ih]
    by_cases hk : k ∈ ks
    · simp [hk]
    · by_cases he : k = k0
      · subst he
        simp [hk, updateConfigurationStep_eq, mapSet]
      · simp [hk, he, updateConfigurationStep_eq, mapSet]

theorem updateConfiguration_flag_congr (env : FilterEnv) (ks : List String) :
    ∀ (acc1 acc2 : Bool × RootExpressionMap), acc1.1 = acc2.1 →
      (∀ j ∈ ks, acc1.2 j = acc2.2 j) →
      (ks.foldl (updateConfigurationStep env) acc1).1 =
        (ks.foldl (updateConfigurationStep env) acc2).1 := by
  induction ks with
  | nil => intro acc1 acc2 h1 _; simpa using h1
  | cons k0 ks ih =>
    intro acc1 acc2 h1 h2
    rw [List.foldl_cons, List.foldl_cons,
      updateConfigurationStep_eq, updateConfigurationStep_eq]
    refine ih _ _ ?_ ?_
    · have hk0 : acc1.2 k0 = acc2.2 k0 := h2 k0 (by simp)
      simp [h1, rootNeedsRefresh, hk0]
    · intro j hj
      simp only [mapSet]
      by_cases hjk : j = k0
      · simp [hjk]
      · simp [hjk, h2 j (by simp [hj])]

theorem updateConfiguration_flag_aux (env : FilterEnv) (ks : List String) :
    ks.Nodup →
    ∀ acc : Bool × RootExpressionMap,
      (ks.foldl (updateConfigurationStep env) acc).1 =
        (acc.1 || ks.any (rootNeedsRefresh env acc.2)) := by
  induction ks with
  | nil => intro _ acc; simp
  | cons k0 ks ih =>
    intro hnd acc
    have hk0 : k0 ∉ ks := (List.nodup_cons.mp hnd).1
    have hnd2 : ks.Nodup := (List.nodup_cons.mp hnd).2
    rw [List.foldl_cons, updateConfigurationStep_eq]
    have hcongr := updateConfiguration_flag_congr env ks
      (acc.1 || rootNeedsRefresh env acc.2 k0, mapSet acc.2 k0 (env.cachedEntry k0))
      (acc.1 || rootNeedsRefresh env acc.2 k0, acc.2)
      rfl
      (by
        intro j hj
        have hjk : j ≠ k0 := fun heq => hk0 (heq ▸ hj)
        simp [mapSet, hjk])
    rw [hcongr, ih hnd2]
    simp [Bool.or_assoc]

/-- C2: `updateConfiguration` returns true iff some current workspace root
has no cached entry or a cached raw expression that differs (by deep
structural equality) from the freshly read one; and it (re)stores, for every
current root, the raw expression (as a deep copy — value-identical here)
together with the matcher compiled from that copy. Roots are assumed
pairwise distinct, as workspace folders are. -/
theorem c2_updateConfiguration_spec (env : FilterEnv) (m : RootExpressionMap)
    (hnd : env.folders.Nodup) :
    ((FilesFilter.updateConfiguration env m).1 = true ↔
      ∃ k ∈ env.folders, m k = none ∨
        ∃ cached, m k = some cached ∧ cached.original ≠ env.excludesOf k) ∧
    (∀ k ∈ env.folders,
      (FilesFilter.updateConfiguration env m).2 k =
        some ⟨env.excludesOf k, env.globParse (env.excludesOf k)⟩) := by
  constructor
  · rw [FilesFilter.updateConfiguration,
      updateConfiguration_flag_aux env env.folders hnd (false, m)]
    simp only [Bool.false_or, List.any_eq_true]
    constructor
    · rintro ⟨k, hk, hp⟩
      refine ⟨k, hk, ?_⟩
      revert hp
      unfold rootNeedsRefresh
      cases hm : m k with
      | none => intro _; exact Or.inl rfl
      | some cached =>
        intro hp
        refine Or.inr ⟨cached, rfl, ?_⟩
        simpa using hp
    · rintro ⟨k, hk, hp⟩
      refine ⟨k, hk, ?_⟩
      unfold rootNeedsRefresh
      cases hm : m k with
      | none => rfl
      | some cached =>
        rcases hp with hnone | ⟨c, hc, hne⟩
        · rw [hm] at hnone; cases hnone
        · rw [hm] at hc
          cases hc
          simpa using hne
  · intro k hk
    rw [FilesFilter.updateConfiguration,
      updateConfiguration_map_aux env env.folders (false, m) k]
    simp [hk, FilterEnv.cachedEntry, deepClone]

/-- A concrete one-root environment reading a nonempty exclude expression. -/
def sampleEnv : FilterEnv :=
  ⟨["file:///r"], fun _ => some [("node_modules", true)],
    fun _ => fun _ _ _ => false⟩

/-- Witness for C2: refreshing from an empty cache reports a needed refresh. -/
theorem c2_updateConfiguration_spec_witness :
    (FilesFilter.updateConfiguration sampleEnv (fun _ => none)).1 = true :=
  (c2_updateConfiguration_spec sampleEnv (fun _ => none) (by decide)).1.mpr
    ⟨"file:///r", by decide, Or.inl rfl⟩
